import Mathlib

/-!
Verification of the naming resolution engine of the quicktype repository.

The engine lives in `src/Reykjavik/Naming.ts` (namespaces, named entities,
the naming context and the `assignNames` driver) and
`src/Reykjavik/Language/CSharp.ts` (the `CountingNamingFunction` strategy).

Embedding conventions:
* `Named` and `Namespace` objects are compared by reference identity in the
  source (`equals(other) { return this === other; }`), so the embedding keys
  every entity and namespace by a natural-number handle.  A `World` supplies
  the data behind each handle.
* The `immutable.js` collections are modelled as lists: `OrderedSet` as a
  duplicate-free list in insertion order (`odedup` performs the
  deduplication that `OrderedSet.union` / `toOrderedSet` perform), `Map` as
  an association list, and `Set<string>` (built by `.toSet()`) as a
  deduplicated list whose membership test is what matters.
* `ctx.names.get(n)` on a missing key yields JavaScript `undefined`; values
  read from that map are therefore `Option String`, and the forbidden-name
  set handed to a naming function is a `List (Option String)` because the
  source pours possibly-undefined lookups into it.
* Thrown strings and runtime `TypeError`s are modelled by the `NamingError`
  type; a stateful method that can throw returns the mutated state together
  with `Option NamingError` (field mutations performed before the throw are
  kept, as in the source).
* The two unbounded recursions of the source (`allNamespacesRecursively`
  over the child forest and the `for (;;)` loop of `assignNames`) take a
  fuel argument; any fuel at least the forest depth (and at least 1 for the
  loop, which is proved to return during its first iteration) yields the
  source's behaviour.  The retry loop of `CountingNamingFunction.name` is
  run with fuel `maxForbiddenLength + 1`, a bound past which every attempt
  is provably accepted, so the fuel never runs out and the function returns
  the first accepted attempt exactly as the source loop does.
-/

namespace Reykjavik

/-- Errors of the engine: the three thrown strings of `Naming.ts`
(`"Named assigned twice"`, `"Assigned name conflicts"`,
`"Naming function returned wrong number of names"`), the thrown string of
`CountingNamingFunction.name` (`"Number of names can't be less than 1"`),
the JavaScript `TypeError` raised by calling a method on `undefined`, and a
marker for exhausted loop fuel (a modelling artefact that the proofs show
is unreachable for positive fuel). -/
inductive NamingError where
  | namedAssignedTwice
  | assignedNameConflicts
  | wrongNumberOfNames
  | invalidNumberOfNames
  | typeError
  | outOfFuel
deriving DecidableEq

/-- The three concrete subclasses of `Named`: `FixedNamed` (proposes its
stored diagnostic name), `SimpleNamed` (stores a precomputed proposal) and
`DependencyNamed` (stores an ordered dependency list, duplicates
meaningful, and a combinator over the dependencies' looked-up names; a
lookup of an unassigned dependency yields `undefined`, hence
`Option String`). -/
inductive NamedKind where
  | fixedNamed
  | simpleNamed (proposed : String)
  | dependencyNamed (dependencies : List Nat) (propose : List (Option String) → String)

/-- Data behind a `Named` handle: owning namespace, diagnostic name, the
optional naming function (`none` exactly for `FixedNamed` in the source,
since only its constructor passes `null`), and the variant. -/
structure NamedData where
  namespaceId : Nat
  name : String
  namingFunction : Option Nat
  kind : NamedKind

/-- Data behind a `Namespace` handle: display name, optional parent,
children and members in insertion order, and the forbidden namespace set
supplied at construction. -/
structure NamespaceData where
  name : String
  parent : Option Nat
  children : List Nat
  forbidden : List Nat
  members : List Nat

/-- The whole input of a resolution run: what stands behind every `Named`
handle, every `Namespace` handle and every naming-function handle.  A
naming function receives the proposed name, the forbidden-name set (with
possible `undefined` entries, see module comment) and the requested count,
and either returns its `OrderedSet` of names as a list or throws. -/
structure World where
  nameds : Nat → NamedData
  namespaces : Nat → NamespaceData
  namingFunctions : Nat → String → List (Option String) → Nat → Except NamingError (List String)

/-- `Named.dependencies`: the empty list for `FixedNamed` and
`SimpleNamed`, the stored list for `DependencyNamed`. -/
def NamedData.dependencies (d : NamedData) : List Nat :=
  match d.kind with
  | .fixedNamed => []
  | .simpleNamed _ => []
  | .dependencyNamed ds _ => ds

/-- `Named.isFixed`: true iff no naming function is attached. -/
def NamedData.isFixed (d : NamedData) : Bool :=
  d.namingFunction.isNone

/-- Lookup in the `names : Map<Named, string>` association list
(`names.get(n)`, `undefined` when absent). -/
def lookupName (names : List (Nat × String)) (i : Nat) : Option String :=
  (names.find? (fun p => p.1 == i)).map (fun p => p.2)

/-- `names.has(n)` on the assignment map. -/
def hasName (names : List (Nat × String)) (i : Nat) : Bool :=
  (lookupName names i).isSome

/-- `Map.set` on the assignment map: replace the binding if present,
append it otherwise. -/
def mapSet (m : List (Nat × String)) (k : Nat) (v : String) : List (Nat × String) :=
  if m.any (fun p => p.1 == k) then
    m.map (fun p => if p.1 == k then (k, v) else p)
  else
    m ++ [(k, v)]

/-- `Named.proposeName(names)`: `FixedNamed` returns its stored name and
`SimpleNamed` its stored proposal, both ignoring the argument;
`DependencyNamed` maps its dependencies through the assignment map (in the
source the fixed pass even passes `null`, which the two
argument-ignoring variants never touch). -/
def NamedData.proposeName (d : NamedData) (names : List (Nat × String)) : String :=
  match d.kind with
  | .fixedNamed => d.name
  | .simpleNamed proposed => proposed
  | .dependencyNamed ds propose => propose (ds.map (fun i => lookupName names i))

/-- Helper of `odedup`: keep the elements not seen before, first
occurrence first, as `OrderedSet` insertion does. -/
def odedupAux {α : Type} [BEq α] (seen : List α) : List α → List α
  | [] => []
  | a :: rest =>
    if seen.contains a then odedupAux seen rest
    else a :: odedupAux (a :: seen) rest

/-- Deduplication keeping first occurrences: the effect of pouring a list
into an `immutable.js` `OrderedSet` (or `Set`, where only membership is
used afterwards). -/
def odedup {α : Type} [BEq α] (l : List α) : List α :=
  odedupAux [] l

/-- `orderedSetUnion` of `Naming.ts`: union of a sequence of ordered sets,
first occurrences first. -/
def orderedSetUnion (sets : List (List Nat)) : List Nat :=
  odedup sets.flatten

/-- `allNamespacesRecursively`: the given namespaces united with the
recursive closure of their children, with `fuel` bounding the recursion
depth (the source recursion terminates because the parent link is set once
at construction, so the child graph is a forest). -/
def allNamespacesRecursively (w : World) : Nat → List Nat → List Nat
  | 0, nss => nss
  | fuel + 1, nss =>
    odedup (nss ++ (nss.map (fun i => allNamespacesRecursively w fuel (w.namespaces i).children)).flatten)

/-- The state of `NamingContext`: the assignment map `names`, the reverse
index `namedsForName : Map<string, Set<Named>>` and the flattened
namespace set computed in the constructor. -/
structure NamingContext where
  names : List (Nat × String)
  namedsForName : List (String × List Nat)
  namespaces : List Nat

/-- `NamingContext.isReadyToBeNamed`: not yet assigned, and every
dependency assigned. -/
def isReadyToBeNamed (w : World) (ctx : NamingContext) (named : Nat) : Bool :=
  !(hasName ctx.names named) && (w.nameds named).dependencies.all (fun n => hasName ctx.names n)

/-- `NamingContext.isFullyNamed`: every member of the namespace has an
assigned name. -/
def isFullyNamed (w : World) (ctx : NamingContext) (namespace1 : Nat) : Bool :=
  (w.namespaces namespace1).members.all (fun n => hasName ctx.names n)

/-- `NamingContext.isConflicting`: false when the reverse index has no
entry for the proposed string; otherwise true iff that entry holds an
entity of the same namespace or of a namespace in the forbidden set of the
candidate's namespace. -/
def isConflicting (w : World) (ctx : NamingContext) (named : Nat) (proposed : String) : Bool :=
  match ctx.namedsForName.find? (fun p => p.1 == proposed) with
  | none => false
  | some entry =>
    entry.2.any (fun n =>
      ((w.nameds named).namespaceId == (w.nameds n).namespaceId) ||
      (w.namespaces (w.nameds named).namespaceId).forbidden.contains (w.nameds n).namespaceId)

/-- `NamingContext.assign`: throw on double assignment, throw on conflict,
update `names`, then update the reverse index.  The two reverse-index
statements of the source call `Map.set` and `Set.add` on `immutable.js`
values and discard the results, so the index is never extended; worse,
when the index has no entry for the name, `namedsForName.get(name)` is
`undefined` and calling `.add` on it throws a `TypeError` — after `names`
was already mutated.  The returned context keeps mutations made before the
throw, as the source's mutable `this` does. -/
def assign (w : World) (ctx : NamingContext) (named : Nat) (name : String) :
    NamingContext × Option NamingError :=
  if hasName ctx.names named then
    (ctx, some .namedAssignedTwice)
  else if isConflicting w ctx named name then
    (ctx, some .assignedNameConflicts)
  else
    match ctx.namedsForName.find? (fun p => p.1 == name) with
    | none => ({ ctx with names := mapSet ctx.names named name }, some .typeError)
    | some _ => ({ ctx with names := mapSet ctx.names named name }, none)

/-- Sequential `assign` calls (the fixed pass's `forEach`): stop at the
first thrown error, keeping the mutated context, each entity assigned the
proposal `proposeName(null)` it computes. -/
def assignAllFixed (w : World) (ctx : NamingContext) : List Nat → NamingContext × Option NamingError
  | [] => (ctx, none)
  | n :: rest =>
    match assign w ctx n ((w.nameds n).proposeName []) with
    | (ctx', some e) => (ctx', some e)
    | (ctx', none) => assignAllFixed w ctx' rest

/-- An arbitrary sequence of `assign` calls against a context, recording
every error thrown along the way while keeping the mutated state (used to
state invariants of the reverse index). -/
def assignSeq (w : World) (ctx : NamingContext) : List (Nat × String) → NamingContext × List NamingError
  | [] => (ctx, [])
  | (n, s) :: rest =>
    match assign w ctx n s with
    | (ctx', err) =>
      match assignSeq w ctx' rest with
      | (ctxF, errs) => (ctxF, err.toList ++ errs)

/-- Add an element to the group of its key, first-occurrence key order. -/
def addToGroup {α κ : Type} [BEq κ] (acc : List (κ × List α)) (k : κ) (a : α) : List (κ × List α) :=
  if acc.any (fun p => p.1 == k) then
    acc.map (fun p => if p.1 == k then (p.1, p.2 ++ [a]) else p)
  else
    acc ++ [(k, [a])]

/-- `Iterable.groupBy`: buckets keyed by the grouping function, elements
kept in enumeration order inside each bucket. -/
def groupByKey {α κ : Type} [BEq κ] (key : α → κ) (l : List α) : List (κ × List α) :=
  l.foldl (fun acc a => addToGroup acc (key a) a) []

/-- A run of `k` underscore filler characters. -/
def mkUnderscores (k : Nat) : String :=
  ⟨List.replicate k '_'⟩

/-- One attempt of `CountingNamingFunction.name` at a given filler: the
bare candidate plus filler when one name is requested, otherwise the batch
`candidate + filler + 0 … candidate + filler + (count-1)` poured into an
`OrderedSet`. -/
def countingAttempt (proposedName : String) (underscores : String) (numberOfNames : Nat) : List String :=
  if numberOfNames == 1 then
    [proposedName ++ underscores]
  else
    odedup ((List.range numberOfNames).map (fun i => proposedName ++ underscores ++ Nat.repr i))

/-- The retry loop of `CountingNamingFunction.name`: try the attempt at
the current filler; if any member is in the forbidden set, grow the filler
by one underscore and retry.  `fuel` bounds the retries; the callers pass
`maxForbiddenLength forbiddenNames + 1`, past which every attempt is
accepted, so the exhaustion case never decides the result. -/
def countingLoop (proposedName : String) (forbiddenNames : List (Option String)) (numberOfNames : Nat) :
    Nat → String → List String
  | 0, underscores => countingAttempt proposedName underscores numberOfNames
  | fuel + 1, underscores =>
    let names := countingAttempt proposedName underscores numberOfNames
    if names.any (fun n => forbiddenNames.contains (some n)) then
      countingLoop proposedName forbiddenNames numberOfNames fuel (underscores ++ "_")
    else
      names

/-- The largest length of a string in the forbidden set (`undefined`
entries ignored); every name longer than this is automatically legal. -/
def maxForbiddenLength (forbiddenNames : List (Option String)) : Nat :=
  forbiddenNames.foldr (fun o acc => match o with | none => acc | some s => max s.length acc) 0

/-- `CountingNamingFunction.name` of `CSharp.ts`: throw when fewer than
one name is requested, otherwise run the retry loop starting from the
empty filler. -/
def countingName (proposedName : String) (forbiddenNames : List (Option String)) (numberOfNames : Nat) :
    Except NamingError (List String) :=
  if numberOfNames < 1 then
    .error .invalidNumberOfNames
  else
    .ok (countingLoop proposedName forbiddenNames numberOfNames (maxForbiddenLength forbiddenNames + 1) "")

/-- Assign the names returned by a naming function to the batch members in
enumeration order (the indexed `for` loop of step 3), stopping at the
first thrown error. -/
def assignBatch (w : World) (ctx : NamingContext) : List (Nat × String) → NamingContext × Option NamingError
  | [] => (ctx, none)
  | (named, name) :: rest =>
    match assign w ctx named name with
    | (ctx', some e) => (ctx', some e)
    | (ctx', none) => assignBatch w ctx' rest

/-- One `(naming function, proposed)` bucket of step 3: invoke the naming
function (on a `null` key this is a method call on `null`, a `TypeError`),
check that it returned the requested number of names, and assign them. -/
def nameBatch (w : World) (forbiddenNames : List (Option String)) (namingFunction : Option Nat)
    (ctx : NamingContext) (proposed : String) (nameds : List Nat) : NamingContext × Option NamingError :=
  match namingFunction with
  | none => (ctx, some .typeError)
  | some nf =>
    match w.namingFunctions nf proposed forbiddenNames nameds.length with
    | .error e => (ctx, some e)
    | .ok names =>
      if names.length != nameds.length then
        (ctx, some .wrongNumberOfNames)
      else
        assignBatch w ctx (nameds.zip names)

/-- Iterate the inner `byProposed.forEach` of `assignNames`. -/
def processProposedGroups (w : World) (forbiddenNames : List (Option String)) (namingFunction : Option Nat) :
    NamingContext → List (String × List Nat) → NamingContext × Option NamingError
  | ctx, [] => (ctx, none)
  | ctx, (proposed, nameds) :: rest =>
    match nameBatch w forbiddenNames namingFunction ctx proposed nameds with
    | (ctx', some e) => (ctx', some e)
    | (ctx', none) => processProposedGroups w forbiddenNames namingFunction ctx' rest

/-- Iterate the outer `byNamingFunction.forEach` of `assignNames`; the
per-group `byProposed` grouping reads the assignment map as mutated by the
preceding groups, as in the source. -/
def processNamingFunctionGroups (w : World) (forbiddenNames : List (Option String)) :
    NamingContext → List (Option Nat × List Nat) → NamingContext × Option NamingError
  | ctx, [] => (ctx, none)
  | ctx, (namingFunction, nameds) :: rest =>
    let byProposed := groupByKey (fun n => (w.nameds n).proposeName ctx.names) nameds
    match processProposedGroups w forbiddenNames namingFunction ctx byProposed with
    | (ctx', some e) => (ctx', some e)
    | (ctx', none) => processNamingFunctionGroups w forbiddenNames ctx' rest

/-- The `for (;;)` fixpoint loop of `assignNames`.  Step 1 keeps the
namespaces accepted by `ctx.isFullyNamed` (the namespace itself, exactly
as the source line reads) and looks for one with a ready member; when none
is found the current assignment map is returned.  Otherwise the forbidden
names are collected, the ready members are grouped by naming function and
by proposed name, and every bucket is named and assigned. -/
def assignNamesLoop (w : World) : Nat → NamingContext → Except NamingError (List (Nat × String))
  | 0, _ => .error .outOfFuel
  | fuel + 1, ctx =>
    let unfinishedNamespaces := ctx.namespaces.filter (fun i => isFullyNamed w ctx i)
    match unfinishedNamespaces.find? (fun i => (w.namespaces i).members.any (fun m => isReadyToBeNamed w ctx m)) with
    | none => .ok ctx.names
    | some readyNamespace =>
      let forbiddenNameds := orderedSetUnion ((w.namespaces readyNamespace).forbidden.map (fun f => (w.namespaces f).members))
      let forbiddenNames := odedup (forbiddenNameds.map (fun n => lookupName ctx.names n))
      let readyNames := (w.namespaces readyNamespace).members.filter (fun m => isReadyToBeNamed w ctx m)
      let byNamingFunction := groupByKey (fun n => (w.nameds n).namingFunction) readyNames
      match processNamingFunctionGroups w forbiddenNames ctx byNamingFunction with
      | (_, some e) => .error e
      | (ctx', none) => assignNamesLoop w fuel ctx'

/-- The fixed members of the given namespaces in enumeration order (the
`flatMap` of the fixed pass). -/
def fixedMembers (w : World) (namespaces : List Nat) : List Nat :=
  namespaces.flatMap (fun i => (w.namespaces i).members.filter (fun n => (w.nameds n).isFixed))

/-- `assignNames`: build the context (flattening the namespace forest),
assign all fixed names, then run the fixpoint loop. -/
def assignNames (w : World) (fuel : Nat) (rootNamespaces : List Nat) :
    Except NamingError (List (Nat × String)) :=
  match assignAllFixed w ⟨[], [], allNamespacesRecursively w fuel rootNamespaces⟩
      (fixedMembers w (allNamespacesRecursively w fuel rootNamespaces)) with
  | (_, some e) => .error e
  | (ctx', none) => assignNamesLoop w fuel ctx'

/-- Whether the attempt of `CountingNamingFunction.name` at filler length
`k` is accepted, i.e. no member of the attempt is in the forbidden set. -/
def goodAttempt (proposedName : String) (forbiddenNames : List (Option String)) (numberOfNames k : Nat) : Bool :=
  !((countingAttempt proposedName (mkUnderscores k) numberOfNames).any (fun n => forbiddenNames.contains (some n)))

/-- Following the spec's words, for comparison with the code's namespace
selection: a namespace may be selected when every namespace in its
forbidden set is fully resolved and it has at least one ready member. -/
def specSelectsNamespace (w : World) (ctx : NamingContext) (namespace1 : Nat) : Bool :=
  (w.namespaces namespace1).forbidden.all (fun f => isFullyNamed w ctx f) &&
  (w.namespaces namespace1).members.any (fun m => isReadyToBeNamed w ctx m)

/-- A world with one root namespace (handle 0) holding one `SimpleNamed`
member (handle 0) that proposes `"Foo"` under the counting naming function
(handle 0); no dependencies anywhere, hence no dependency cycles. -/
def oneSimpleWorld : World where
  nameds := fun _ => ⟨0, "foo", some 0, .simpleNamed "Foo"⟩
  namespaces := fun _ => ⟨"global", none, [], [], [0]⟩
  namingFunctions := fun _ => countingName

/-- The naming context right after the fixed pass of
`assignNames oneSimpleWorld 2 [0]` (which assigns nothing, as the sole
member is not fixed). -/
def oneSimpleCtx : NamingContext :=
  ⟨[], [], allNamespacesRecursively oneSimpleWorld 2 [0]⟩

/-- A world with one root namespace (handle 0) holding one `FixedNamed`
member (handle 0) with literal name `"Foo"`. -/
def oneFixedWorld : World where
  nameds := fun _ => ⟨0, "Foo", none, .fixedNamed⟩
  namespaces := fun _ => ⟨"global", none, [], [], [0]⟩
  namingFunctions := fun _ => countingName

/-- A world with one root namespace (handle 0) holding two `SimpleNamed`
members (handles 0 and 1) that both propose `"Foo"` under the counting
naming function. -/
def twoFooWorld : World where
  nameds := fun i => ⟨0, if i == 1 then "foo1" else "foo0", some 0, .simpleNamed "Foo"⟩
  namespaces := fun _ => ⟨"global", none, [], [], [0, 1]⟩
  namingFunctions := fun _ => countingName

/-- A context over `twoFooWorld` in which entity 0 already holds the name
`"Foo"`; its reverse index is empty, the only shape reachable through
`assign` (whose reverse-index writes are discarded). -/
def conflictCtx : NamingContext :=
  ⟨[(0, "Foo")], [], [0]⟩

/-- A world whose naming function (handle 0) violates its contract by
returning zero names whatever it is asked; one root namespace (handle 0)
with one `SimpleNamed` member (handle 0). -/
def zeroNamesWorld : World where
  nameds := fun _ => ⟨0, "foo", some 0, .simpleNamed "Foo"⟩
  namespaces := fun _ => ⟨"global", none, [], [], [0]⟩
  namingFunctions := fun _ _ _ _ => .ok []

/-- Membership in a boolean `contains` test, for lawful `BEq`. -/
theorem contains_iff {α : Type} [BEq α] [LawfulBEq α] (l : List α) (a : α) :
    l.contains a = true ↔ a ∈ l :=
  List.elem_iff

/-- Elements of a deduplicated list come from the original list. -/
theorem odedupAux_subset {α : Type} [BEq α] (seen l : List α) (a : α)
    (h : a ∈ odedupAux seen l) : a ∈ l := by
  induction l generalizing seen with
  | nil => simp [odedupAux] at h
  | cons b rest ih =>
    simp only [odedupAux] at h
    split at h
    · exact List.mem_cons_of_mem _ (ih seen h)
    · rcases List.mem_cons.mp h with h1 | h2
      · exact h1 ▸ List.mem_cons_self _ _
      · exact List.mem_cons_of_mem _ (ih _ h2)

/-- Elements of `odedup` come from the original list. -/
theorem odedup_subset {α : Type} [BEq α] (l : List α) (a : α)
    (h : a ∈ odedup l) : a ∈ l :=
  odedupAux_subset [] l a h

/-- Deduplication does nothing on a duplicate-free list avoiding the seen
set. -/
theorem odedupAux_eq_self {α : Type} [BEq α] [LawfulBEq α] (seen l : List α)
    (hl : l.Nodup) (hs : ∀ a ∈ l, a ∉ seen) : odedupAux seen l = l := by
  induction l generalizing seen with
  | nil => rfl
  | cons b rest ih =>
    have hb : seen.contains b = false := by
      rw [← Bool.not_eq_true, contains_iff]
      exact hs b (List.mem_cons_self _ _)
    simp only [odedupAux, hb]
    rw [if_neg (by simp)]
    have hnodup := List.nodup_cons.mp hl
    rw [ih (b :: seen) hnodup.2]
    intro a ha
    rw [List.mem_cons]
    push_neg
    exact ⟨fun hab => hnodup.1 (hab ▸ ha), hs a (List.mem_cons_of_mem _ ha)⟩

/-- Deduplication does nothing on a duplicate-free list. -/
theorem odedup_eq_self {α : Type} [BEq α] [LawfulBEq α] (l : List α) (hl : l.Nodup) :
    odedup l = l :=
  odedupAux_eq_self [] l hl (by simp)

/-- `assign` never changes the reverse index: the source's two
reverse-index statements discard the `immutable.js` results. -/
theorem assign_namedsForName (w : World) (ctx : NamingContext) (n : Nat) (s : String) :
    (assign w ctx n s).1.namedsForName = ctx.namedsForName := by
  unfold assign
  split
  · rfl
  · split
    · rfl
    · split <;> rfl

/-- `isConflicting` is false whenever the reverse index is empty. -/
theorem isConflicting_of_empty (w : World) (ctx : NamingContext) (n : Nat) (s : String)
    (h : ctx.namedsForName = []) : isConflicting w ctx n s = false := by
  unfold isConflicting
  rw [h]
  rfl

/-- From a context with empty reverse index, `assign` throws on every
call: a double assignment, or the `TypeError` of `undefined.add` (the
reverse index never having been populated). -/
theorem assign_err_of_empty (w : World) (ctx : NamingContext) (n : Nat) (s : String)
    (h : ctx.namedsForName = []) :
    (assign w ctx n s).2 = some .namedAssignedTwice ∨ (assign w ctx n s).2 = some .typeError := by
  unfold assign
  split
  · exact Or.inl rfl
  · rw [if_neg (by simp [isConflicting_of_empty w ctx n s h]), h]
    exact Or.inr rfl

/-- The fixed pass returns without error only on an empty batch, and then
leaves the context unchanged (from an empty reverse index every `assign`
throws). -/
theorem assignAllFixed_none (w : World) (ctx : NamingContext) (l : List Nat)
    (h : ctx.namedsForName = []) (ctx' : NamingContext)
    (hrun : assignAllFixed w ctx l = (ctx', none)) : l = [] ∧ ctx' = ctx := by
  cases l with
  | nil =>
    refine ⟨rfl, ?_⟩
    simp [assignAllFixed] at hrun
    exact hrun.symm
  | cons n rest =>
    exfalso
    simp only [assignAllFixed] at hrun
    rcases assign_err_of_empty w ctx n ((w.nameds n).proposeName []) h with he | he <;>
      · rcases hA : assign w ctx n ((w.nameds n).proposeName []) with ⟨ctxm, err⟩
        rw [hA] at hrun he
        simp at he
        subst he
        simp at hrun

/-- A fully named namespace has no ready member: readiness requires being
unnamed. -/
theorem fullyNamed_no_ready (w : World) (ctx : NamingContext) (i : Nat)
    (h : isFullyNamed w ctx i = true) :
    (w.namespaces i).members.any (fun m => isReadyToBeNamed w ctx m) = false := by
  rw [List.any_eq_false]
  intro m hm
  unfold isFullyNamed at h
  rw [List.all_eq_true] at h
  have hmem := h m hm
  unfold isReadyToBeNamed
  simp [hmem]

/-- The fixpoint loop returns during its first iteration, whatever the
context: the source filters the namespaces by `isFullyNamed` applied to
the namespace itself, and a fully named namespace cannot have a ready
member, so no namespace is ever selected. -/
theorem assignNamesLoop_returns (w : World) (fuel : Nat) (ctx : NamingContext) :
    assignNamesLoop w (fuel + 1) ctx = .ok ctx.names := by
  have hfind : (ctx.namespaces.filter (fun i => isFullyNamed w ctx i)).find?
      (fun i => (w.namespaces i).members.any (fun m => isReadyToBeNamed w ctx m)) = none := by
    rw [List.find?_eq_none]
    intro i hi
    have hfull := (List.mem_filter.mp hi).2
    simp [fullyNamed_no_ready w ctx i hfull]
  simp only [assignNamesLoop]
  rw [hfind]

/-- `assignNames` returns without throwing exactly when the flattened
forest has no fixed member, and then the returned mapping is empty. -/
theorem assignNames_ok (w : World) (fuel : Nat) (roots : List Nat) (m : List (Nat × String))
    (h : assignNames w fuel roots = .ok m) :
    m = [] ∧ fixedMembers w (allNamespacesRecursively w fuel roots) = [] := by
  unfold assignNames at h
  rcases hA : assignAllFixed w ⟨[], [], allNamespacesRecursively w fuel roots⟩
      (fixedMembers w (allNamespacesRecursively w fuel roots)) with ⟨ctx', err⟩
  rw [hA] at h
  cases err with
  | some e => simp at h
  | none =>
    obtain ⟨hfix, hctx⟩ := assignAllFixed_none w _ _ rfl ctx' hA
    subst hctx
    dsimp only at h
    cases fuel with
    | zero => simp [assignNamesLoop] at h
    | succ fuel =>
      rw [assignNamesLoop_returns] at h
      exact ⟨(Except.ok.inj h).symm, hfix⟩

/-- Invariant of arbitrary `assign` sequences: starting from an empty
reverse index, the index remains empty and no `AssignmentConflict` is ever
thrown. -/
theorem assignSeq_empty_invariant (w : World) (calls : List (Nat × String)) (ctx : NamingContext)
    (h : ctx.namedsForName = []) :
    (assignSeq w ctx calls).1.namedsForName = [] ∧
    NamingError.assignedNameConflicts ∉ (assignSeq w ctx calls).2 := by
  induction calls generalizing ctx with
  | nil => simp [assignSeq, h]
  | cons c rest ih =>
    rcases c with ⟨n, s⟩
    simp only [assignSeq]
    rcases hA : assign w ctx n s with ⟨ctxm, err⟩
    have hctxm : ctxm.namedsForName = [] := by
      have hx := assign_namedsForName w ctx n s
      rw [hA] at hx
      exact hx.trans h
    rcases hS : assignSeq w ctxm rest with ⟨ctxF, errs⟩
    obtain ⟨h1, h2⟩ := ih ctxm hctxm
    rw [hS] at h1 h2
    have herr : err ≠ some NamingError.assignedNameConflicts := by
      rcases assign_err_of_empty w ctx n s h with he | he <;>
        · rw [hA] at he
          simp only at he
          rw [he]
          simp
    refine ⟨h1, ?_⟩
    dsimp only
    rw [List.mem_append]
    push_neg
    refine ⟨?_, h2⟩
    cases err with
    | none => simp
    | some e =>
      simp only [Option.toList, List.mem_singleton]
      intro he
      exact herr (by rw [he])

/-- The digits-to-characters bridge for `Nat.toDigitsCore` (the engine of
`Nat.repr`): for positive `n` and sufficient fuel it produces the decimal
digits of `n`, most significant first, in front of the accumulator. -/
theorem toDigitsCore_eq_digits (fuel : Nat) : ∀ (n : Nat) (ds : List Char), 0 < n → n < fuel →
    Nat.toDigitsCore 10 fuel n ds = ((Nat.digits 10 n).map Nat.digitChar).reverse ++ ds := by
  induction fuel with
  | zero => intro n ds h1 h2; omega
  | succ fuel ih =>
    intro n ds h1 h2
    simp only [Nat.toDigitsCore]
    by_cases hz : n / 10 = 0
    · rw [if_pos hz]
      have h10 : n < 10 := (Nat.div_eq_zero_iff (by norm_num)).mp hz
      rw [Nat.digits_def' (by norm_num : (1 : Nat) < 10) h1, hz, Nat.digits_zero]
      simp [Nat.mod_eq_of_lt h10]
    · rw [if_neg hz]
      have hn' : 0 < n / 10 := Nat.pos_of_ne_zero hz
      have hlt : n / 10 < fuel := by
        have := Nat.div_lt_self h1 (by norm_num : (1 : Nat) < 10)
        omega
      rw [ih (n / 10) (Nat.digitChar (n % 10) :: ds) hn' hlt]
      rw [Nat.digits_def' (by norm_num : (1 : Nat) < 10) h1]
      simp

/-- For positive `n`, `Nat.repr n` is the decimal digit characters of `n`,
most significant first. -/
theorem repr_eq_of_pos (n : Nat) (h : 0 < n) :
    Nat.repr n = ⟨((Nat.digits 10 n).map Nat.digitChar).reverse⟩ := by
  unfold Nat.repr Nat.toDigits
  rw [toDigitsCore_eq_digits (n + 1) n [] h (by omega)]
  simp [List.asString]

/-- `Nat.digitChar` is injective below 10. -/
theorem digitChar_inj_lt (a b : Nat) (ha : a < 10) (hb : b < 10)
    (h : Nat.digitChar a = Nat.digitChar b) : a = b := by
  interval_cases a <;> interval_cases b <;> revert h <;> decide

/-- Mapping `Nat.digitChar` over digit lists is injective. -/
theorem map_digitChar_inj : ∀ (l1 l2 : List Nat), (∀ x ∈ l1, x < 10) → (∀ x ∈ l2, x < 10) →
    l1.map Nat.digitChar = l2.map Nat.digitChar → l1 = l2 := by
  intro l1
  induction l1 with
  | nil =>
    intro l2 _ _ h
    cases l2 with
    | nil => rfl
    | cons b t2 => simp at h
  | cons a t ih =>
    intro l2 h1 h2 h
    cases l2 with
    | nil => simp at h
    | cons b t2 =>
      simp only [List.map_cons, List.cons.injEq] at h
      have hab := digitChar_inj_lt a b (h1 a (List.mem_cons_self _ _)) (h2 b (List.mem_cons_self _ _)) h.1
      subst hab
      rw [ih t2 (fun x hx => h1 x (List.mem_cons_of_mem _ hx))
        (fun x hx => h2 x (List.mem_cons_of_mem _ hx)) h.2]

/-- `Nat.repr` is injective: distinct numbers have distinct decimal
strings. -/
theorem nat_repr_injective (m n : Nat) (h : Nat.repr m = Nat.repr n) : m = n := by
  have key : ∀ (k : Nat), 0 < k → Nat.repr k = "0" → False := by
    intro k hk hrepr
    rw [repr_eq_of_pos k hk] at hrepr
    have hdata := congrArg String.data hrepr
    simp only at hdata
    have : (Nat.digits 10 k).map Nat.digitChar = ['0'] := by
      have := congrArg List.reverse hdata
      simpa using this
    cases hd : Nat.digits 10 k with
    | nil => rw [hd] at this; simp at this
    | cons d rest =>
      rw [hd] at this
      simp only [List.map_cons, List.cons.injEq, List.map_eq_nil_iff] at this
      have hd10 : d < 10 := Nat.digits_lt_base (by norm_num) (hd ▸ List.mem_cons_self _ _)
      have hdz : d = 0 := digitChar_inj_lt d 0 hd10 (by norm_num) (by rw [this.1]; rfl)
      have : k = 0 := by
        have hod := Nat.ofDigits_digits 10 k
        rw [hd, this.2, hdz] at hod
        simpa using hod.symm
      omega
  rcases Nat.eq_zero_or_pos m with hm | hm
  · rcases Nat.eq_zero_or_pos n with hn | hn
    · omega
    · exact absurd (h.symm.trans (hm ▸ rfl)) (fun hx => (key n hn hx).elim)
  · rcases Nat.eq_zero_or_pos n with hn | hn
    · exact absurd (h.trans (hn ▸ rfl)) (fun hx => (key m hm hx).elim)
    · rw [repr_eq_of_pos m hm, repr_eq_of_pos n hn] at h
      have hdata := congrArg String.data h
      simp only at hdata
      have hmap : (Nat.digits 10 m).map Nat.digitChar = (Nat.digits 10 n).map Nat.digitChar :=
        List.reverse_injective hdata
      have hdig := map_digitChar_inj (Nat.digits 10 m) (Nat.digits 10 n)
        (fun x hx => Nat.digits_lt_base (by norm_num) hx)
        (fun x hx => Nat.digits_lt_base (by norm_num) hx) hmap
      have := congrArg (Nat.ofDigits 10) hdig
      rwa [Nat.ofDigits_digits, Nat.ofDigits_digits] at this

/-- Appending to a string cancels on the left. -/
theorem string_append_cancel_left (a b c : String) (h : a ++ b = a ++ c) : b = c := by
  have hd := congrArg String.data h
  rw [String.data_append, String.data_append] at hd
  exact String.ext (List.append_cancel_left hd)

/-- The underscore filler has the requested length. -/
theorem mkUnderscores_length (k : Nat) : (mkUnderscores k).length = k := by
  simp [mkUnderscores, String.length]

/-- Growing the filler by one underscore. -/
theorem mkUnderscores_append (k : Nat) : mkUnderscores k ++ "_" = mkUnderscores (k + 1) := by
  apply String.ext
  rw [String.data_append]
  show List.replicate k '_' ++ "_".data = List.replicate (k + 1) '_'
  rw [List.replicate_succ']

/-- The batch names of one attempt are pairwise distinct: the shared part
cancels and decimal representations of distinct indices differ. -/
theorem range_names_nodup (p u : String) (n : Nat) :
    ((List.range n).map (fun i => p ++ u ++ Nat.repr i)).Nodup := by
  apply List.Nodup.map_on
  · intro x _ y _ hxy
    exact nat_repr_injective x y (string_append_cancel_left (p ++ u) _ _ hxy)
  · exact List.nodup_range n

/-- For a batch of two or more, the attempt is exactly the mapped range:
the `toOrderedSet` deduplication finds nothing to remove. -/
theorem countingAttempt_eq_map (p u : String) (n : Nat) (hn : (n == 1) = false) :
    countingAttempt p u n = (List.range n).map (fun i => p ++ u ++ Nat.repr i) := by
  unfold countingAttempt
  rw [if_neg (by simp [hn])]
  exact odedup_eq_self _ (range_names_nodup p u n)

/-- Every attempt returns exactly the requested number of names. -/
theorem countingAttempt_length (p u : String) (n : Nat) (hn : 1 ≤ n) :
    (countingAttempt p u n).length = n := by
  by_cases h1 : n = 1
  · subst h1
    rfl
  · rw [countingAttempt_eq_map p u n (by simp [h1])]
    simp

/-- Every attempt is duplicate-free. -/
theorem countingAttempt_nodup (p u : String) (n : Nat) :
    (countingAttempt p u n).Nodup := by
  by_cases h1 : (n == 1) = true
  · unfold countingAttempt
    rw [if_pos h1]
    simp
  · rw [countingAttempt_eq_map p u n (by simpa using h1)]
    exact range_names_nodup p u n

/-- Every name of the attempt at filler length `k` has length at least
`k`. -/
theorem mem_countingAttempt_length (p : String) (k n : Nat) (s : String)
    (hs : s ∈ countingAttempt p (mkUnderscores k) n) : k ≤ s.length := by
  unfold countingAttempt at hs
  split at hs
  · rw [List.mem_singleton] at hs
    subst hs
    rw [String.length_append, mkUnderscores_length]
    omega
  · have hs' := odedup_subset _ _ hs
    rw [List.mem_map] at hs'
    obtain ⟨i, _, hi⟩ := hs'
    subst hi
    rw [String.length_append, String.length_append, mkUnderscores_length]
    omega

/-- Strings in the forbidden set are no longer than
`maxForbiddenLength`. -/
theorem le_maxForbiddenLength (fb : List (Option String)) (s : String) (h : some s ∈ fb) :
    s.length ≤ maxForbiddenLength fb := by
  induction fb with
  | nil => simp at h
  | cons o rest ih =>
    rcases List.mem_cons.mp h with h1 | h2
    · subst h1
      simp only [maxForbiddenLength, List.foldr_cons]
      exact le_max_left _ _
    · have := ih h2
      cases o with
      | none => simpa [maxForbiddenLength] using this
      | some t =>
        simp only [maxForbiddenLength, List.foldr_cons]
        exact le_trans this (le_max_right _ _)

/-- Attempts at fillers longer than every forbidden string are accepted:
each of their names is too long to be forbidden. -/
theorem goodAttempt_of_big (p : String) (fb : List (Option String)) (n k : Nat)
    (hk : maxForbiddenLength fb < k) : goodAttempt p fb n k = true := by
  unfold goodAttempt
  rw [Bool.not_eq_true']
  rw [List.any_eq_false]
  intro s hs hcon
  have hmem : some s ∈ fb := (contains_iff fb (some s)).mp hcon
  have h1 := le_maxForbiddenLength fb s hmem
  have h2 := mem_countingAttempt_length p k n s hs
  omega

/-- Names of an accepted attempt avoid the forbidden set. -/
theorem goodAttempt_not_forbidden (p : String) (fb : List (Option String)) (n k : Nat)
    (h : goodAttempt p fb n k = true) :
    ∀ s ∈ countingAttempt p (mkUnderscores k) n, some s ∉ fb := by
  unfold goodAttempt at h
  rw [Bool.not_eq_true'] at h
  rw [List.any_eq_false] at h
  intro s hs hmem
  exact h s hs ((contains_iff fb (some s)).mpr hmem)

/-- The retry loop returns the attempt at the least accepted filler
length, provided the attempt at the fuel bound is accepted. -/
theorem countingLoop_spec (p : String) (fb : List (Option String)) (n : Nat) :
    ∀ (fuel k : Nat), goodAttempt p fb n (k + fuel) = true →
    ∃ j, k ≤ j ∧ j ≤ k + fuel ∧ goodAttempt p fb n j = true ∧
      (∀ i, k ≤ i → i < j → goodAttempt p fb n i = false) ∧
      countingLoop p fb n fuel (mkUnderscores k) = countingAttempt p (mkUnderscores j) n := by
  intro fuel
  induction fuel with
  | zero =>
    intro k h
    exact ⟨k, le_refl k, by omega, by simpa using h, fun i h1 h2 => by omega, rfl⟩
  | succ fuel ih =>
    intro k h
    by_cases hg : goodAttempt p fb n k = true
    · refine ⟨k, le_refl k, by omega, hg, fun i h1 h2 => by omega, ?_⟩
      have hany : (countingAttempt p (mkUnderscores k) n).any (fun m => fb.contains (some m)) = false := by
        unfold goodAttempt at hg
        rwa [Bool.not_eq_true'] at hg
      simp only [countingLoop]
      rw [if_neg (by rw [hany]; exact Bool.false_ne_true)]
    · have hgf : goodAttempt p fb n k = false := by
        simpa using hg
      have hany : (countingAttempt p (mkUnderscores k) n).any (fun m => fb.contains (some m)) = true := by
        unfold goodAttempt at hgf
        simpa using hgf
      have h' : goodAttempt p fb n (k + 1 + fuel) = true := by
        have hx : k + 1 + fuel = k + (fuel + 1) := by omega
        rw [hx]
        exact h
      obtain ⟨j, hj1, hj2, hj3, hj4, hj5⟩ := ih (k + 1) h'
      refine ⟨j, by omega, by omega, hj3, ?_, ?_⟩
      · intro i hi1 hi2
        rcases Nat.eq_or_lt_of_le hi1 with rfl | hlt
        · exact hgf
        · exact hj4 i (by omega) hi2
      · simp only [countingLoop]
        rw [if_pos hany, mkUnderscores_append]
        exact hj5

/-- Claim C1 (refuted by evaluation): totality on acyclic input fails.
The world has one root namespace with one `SimpleNamed` member proposing
`"Foo"` and no dependencies anywhere, yet `assignNames` returns the empty
mapping — the member receives no name, because the fixpoint loop filters
namespaces by `isFullyNamed` applied to the namespace itself (instead of
to its forbidden set, as the comment above the source line states), so a
namespace with an unnamed member is never selected. -/
theorem c1_not_total_on_acyclic : assignNames oneSimpleWorld 2 [0] = .ok [] := rfl

/-- Claim C2 (refuted by evaluation): the eligibility rule of the loop is
not the spec's.  In the context right after the fixed pass, the spec's
rule selects namespace 0 (its empty forbidden set is vacuously fully
resolved and it has a ready member), but the source's selection expression
— `find?` over the namespaces accepted by `isFullyNamed` — returns
nothing. -/
theorem c2_selection_diverges_from_spec :
    specSelectsNamespace oneSimpleWorld oneSimpleCtx 0 = true ∧
    (oneSimpleCtx.namespaces.filter (fun i => isFullyNamed oneSimpleWorld oneSimpleCtx i)).find?
      (fun i => (oneSimpleWorld.namespaces i).members.any
        (fun m => isReadyToBeNamed oneSimpleWorld oneSimpleCtx m)) = none :=
  ⟨rfl, rfl⟩

/-- Claim C3 (confirmed): whenever `assignNames` returns normally, the
domain of the returned mapping is exactly the list of fixed members of the
namespaces reachable from the roots, and no non-fixed entity is assigned a
name.  (Normal return in fact forces both sides to be empty: the first
`assign` of any fixed member throws.) -/
theorem c3_domain_eq_fixed (w : World) (fuel : Nat) (roots : List Nat) (m : List (Nat × String))
    (h : assignNames w fuel roots = .ok m) :
    m.map Prod.fst = fixedMembers w (allNamespacesRecursively w fuel roots) ∧
    ∀ p ∈ m, (w.nameds p.1).isFixed = true := by
  obtain ⟨hm, hfix⟩ := assignNames_ok w fuel roots m h
  subst hm
  refine ⟨?_, by simp⟩
  rw [hfix]
  rfl

/-- Witness for C3: a concrete normal return (one namespace, one non-fixed
member) on which the hypothesis holds by evaluation. -/
theorem c3_domain_eq_fixed_witness :
    assignNames oneSimpleWorld 2 [0] = .ok [] ∧
    (([] : List (Nat × String)).map Prod.fst =
        fixedMembers oneSimpleWorld (allNamespacesRecursively oneSimpleWorld 2 [0]) ∧
      ∀ p ∈ ([] : List (Nat × String)), (oneSimpleWorld.nameds p.1).isFixed = true) :=
  ⟨rfl, c3_domain_eq_fixed oneSimpleWorld 2 [0] [] rfl⟩

/-- Claim C4 (refuted by evaluation): the no-forbidden-collision guarantee
is vacuous.  On the spec's own collision scenario — two `SimpleNamed`
entities of one namespace both proposing `"Foo"` — `assignNames` resolves
no entity at all (it returns the empty mapping), so no pair of resolved
entities ever exists. -/
theorem c4_no_resolved_entities : assignNames twoFooWorld 2 [0] = .ok [] := rfl

/-- Claim C5 (confirmed): after every sequence of `assign` calls starting
from a freshly constructed context, the reverse index `namedsForName` is
still the empty map, `isConflicting` returns false for every entity and
every proposed string, and the `"Assigned name conflicts"` branch never
threw. -/
theorem c5_reverse_index_stays_empty (w : World) (nss : List Nat) (calls : List (Nat × String)) :
    (assignSeq w ⟨[], [], nss⟩ calls).1.namedsForName = [] ∧
    (∀ n s, isConflicting w (assignSeq w ⟨[], [], nss⟩ calls).1 n s = false) ∧
    NamingError.assignedNameConflicts ∉ (assignSeq w ⟨[], [], nss⟩ calls).2 := by
  obtain ⟨h1, h2⟩ := assignSeq_empty_invariant w calls ⟨[], [], nss⟩ rfl
  exact ⟨h1, fun n s => isConflicting_of_empty w _ n s h1, h2⟩

/-- Claim C6 (refuted by evaluation): no `AssignmentConflict` is raised
where the claim demands one.  Entity 0 of the namespace already holds
`"Foo"` (in the only reachable context shape, whose reverse index is
empty) and entity 1 of the same namespace is assigned `"Foo"`: the
conflict test returns false and `assign` throws a `TypeError` instead of
the claimed `AssignmentConflict`. -/
theorem c6_conflict_not_raised :
    lookupName conflictCtx.names 0 = some "Foo" ∧
    (twoFooWorld.nameds 1).namespaceId = (twoFooWorld.nameds 0).namespaceId ∧
    isConflicting twoFooWorld conflictCtx 1 "Foo" = false ∧
    (assign twoFooWorld conflictCtx 1 "Foo").2 = some .typeError :=
  ⟨rfl, rfl, rfl, rfl⟩

/-- Claim C7 (confirmed): for every candidate, forbidden string set and
requested count of at least one, `CountingNamingFunction.name` returns
exactly `count` pairwise-distinct names avoiding the forbidden set; the
returned batch is the attempt at the least accepted filler length — for
`count = 1` the bare candidate followed by the smallest number of
underscores avoiding the forbidden set, for larger counts the batch
`candidate+filler+0 … candidate+filler+(count-1)` with the shared shortest
legal filler. -/
theorem c7_countingName_spec (proposed : String) (fbs : List String) (count : Nat)
    (h : 1 ≤ count) :
    ∃ k names,
      countingName proposed (fbs.map some) count = .ok names ∧
      names = countingAttempt proposed (mkUnderscores k) count ∧
      (count = 1 → names = [proposed ++ mkUnderscores k]) ∧
      goodAttempt proposed (fbs.map some) count k = true ∧
      (∀ j < k, goodAttempt proposed (fbs.map some) count j = false) ∧
      names.length = count ∧ names.Nodup ∧ ∀ s ∈ names, s ∉ fbs := by
  have hbig : goodAttempt proposed (fbs.map some) count
      (0 + (maxForbiddenLength (fbs.map some) + 1)) = true := by
    apply goodAttempt_of_big
    omega
  obtain ⟨j, _, _, hgood, hleast, heq⟩ :=
    countingLoop_spec proposed (fbs.map some) count (maxForbiddenLength (fbs.map some) + 1) 0 hbig
  refine ⟨j, countingAttempt proposed (mkUnderscores j) count, ?_, rfl, ?_, hgood, ?_, ?_, ?_, ?_⟩
  · unfold countingName
    rw [if_neg (by omega)]
    rw [← heq]
    rfl
  · intro h1
    subst h1
    rfl
  · intro j' hj'
    exact hleast j' (by omega) hj'
  · exact countingAttempt_length _ _ _ h
  · exact countingAttempt_nodup _ _ _
  · intro s hs hmem
    exact goodAttempt_not_forbidden _ _ _ _ hgood s hs (List.mem_map.mpr ⟨s, hmem, rfl⟩)

/-- Witness for C7: the concrete batch request of the spec's collision
scenario — two names from candidate `"Foo"` with `"Foo0"` forbidden. -/
theorem c7_countingName_spec_witness :
    1 ≤ 2 ∧
    ∃ k names,
      countingName "Foo" (["Foo0"].map some) 2 = .ok names ∧
      names = countingAttempt "Foo" (mkUnderscores k) 2 ∧
      (2 = 1 → names = ["Foo" ++ mkUnderscores k]) ∧
      goodAttempt "Foo" (["Foo0"].map some) 2 k = true ∧
      (∀ j < k, goodAttempt "Foo" (["Foo0"].map some) 2 j = false) ∧
      names.length = 2 ∧ names.Nodup ∧ ∀ s ∈ names, s ∉ ["Foo0"] :=
  ⟨by omega, c7_countingName_spec "Foo" ["Foo0"] 2 (by omega)⟩

/-- Claim C8 (refuted by evaluation): no `NamingFunctionContractViolation`
is raised.  The world's naming function returns zero names whatever it is
asked — the wrong count for every positive request — yet `assignNames`
returns the empty mapping without error: the selection defect makes the
batch code (and with it the only count check) unreachable, and no check
against the forbidden set exists at all. -/
theorem c8_contract_violation_not_raised : assignNames zeroNamesWorld 2 [0] = .ok [] := rfl

/-- Claim C9 (refuted by evaluation): fixed fidelity fails.
`FixedNamed.proposeName` does return the stored literal whatever the
context, but the fixed pass's very first `assign` throws a `TypeError`
(the reverse-index `get` yields `undefined` because the `immutable.js`
`Map.set` result was discarded), so `assignNames` never returns an
assignment for a forest containing a fixed member. -/
theorem c9_fixed_member_throws :
    (∀ names, (oneFixedWorld.nameds 0).proposeName names = "Foo") ∧
    assignNames oneFixedWorld 2 [0] = .error .typeError :=
  ⟨fun _ => rfl, rfl⟩

/-- Claim C10 (confirmed): determinism — `assignNames` is a pure function
of the world, the fuel and the root list; equal inputs give equal
assignments. -/
theorem c10_assignNames_deterministic (w w' : World) (fuel fuel' : Nat)
    (roots roots' : List Nat) (hw : w = w') (hf : fuel = fuel') (hr : roots = roots') :
    assignNames w fuel roots = assignNames w' fuel' roots' := by
  subst hw
  subst hf
  subst hr
  rfl

/-- Witness for C10: two runs on the same concrete input coincide. -/
theorem c10_assignNames_deterministic_witness :
    oneSimpleWorld = oneSimpleWorld ∧ (2 : Nat) = 2 ∧ ([0] : List Nat) = [0] ∧
    assignNames oneSimpleWorld 2 [0] = assignNames oneSimpleWorld 2 [0] :=
  ⟨rfl, rfl, rfl,
    c10_assignNames_deterministic oneSimpleWorld oneSimpleWorld 2 2 [0] [0] rfl rfl rfl⟩

end Reykjavik
